import Mathlib

/-!
Shallow embedding of the property-trading game core of the brasil-prev
repository: value objects (Money, Position), the property repository,
players, the game state machine and engine, and the batch-statistics
aggregation, together with theorems checking the specification claims.

Python exceptions are modelled with Option: a result of none means the
source raised; some x is the normal return. Mutation is modelled by
explicit state passing. Players are identified by their roster index
(PlayerId), since the source stores Player object references and compares
them by identity.
-/

namespace BrasilPrev

/-- Money value object from app/domain/value_objects.py: an integer amount. -/
structure Money where
  amount : Int
deriving DecidableEq, Repr

/-- Money.add with an integer argument: returns a new Money with the sum. -/
def Money.add (m : Money) (x : Int) : Money := ⟨m.amount + x⟩

/-- Money.add with a Money argument. -/
def Money.addM (m n : Money) : Money := ⟨m.amount + n.amount⟩

/-- Money.subtract with a Money argument. -/
def Money.subtractM (m n : Money) : Money := ⟨m.amount - n.amount⟩

/-- Money.is_positive. -/
def Money.is_positive (m : Money) : Bool := m.amount > 0

/-- Money.is_negative. -/
def Money.is_negative (m : Money) : Bool := m.amount < 0

/-- Money.is_sufficient_for: amount at least the cost. -/
def Money.is_sufficient_for (m cost : Money) : Bool := m.amount ≥ cost.amount

/-- Position value object: a non-negative board index (the constructor in
value_objects.py rejects negative values, so the carrier is Nat). -/
structure Position where
  value : Nat
deriving DecidableEq, Repr

/-- Position.move from app/domain/value_objects.py. Raises (none) when
steps <= 0 or board_size <= 0; otherwise returns the wrapped position
(value + steps) mod board_size and the completed_round flag, which is true
when the new value is less than the old one or value + steps >= board_size. -/
def Position.move (p : Position) (steps boardSize : Int) : Option (Position × Bool) :=
  if steps ≤ 0 then none
  else if boardSize ≤ 0 then none
  else
    let s : Nat := steps.toNat
    let b : Nat := boardSize.toNat
    let newValue : Nat := (p.value + s) % b
    some (⟨newValue⟩, decide (newValue < p.value) || decide (p.value + s ≥ b))

/-- Immutable property blueprint from app/domain/models.py: cost and rent.
The Python dataclass compares properties by (cost, rent) only, because the
owner field is marked compare=False; ownership therefore lives outside the
blueprint, in the repository. -/
structure PropertyBlueprint where
  cost : Money
  rent : Money
deriving DecidableEq, Repr

/-- Roster index of a player; the source passes Player references around and
compares them by object identity, which the index captures. -/
abbrev PlayerId := Nat

/-- Merged read view returned by the repository: the blueprint together with
the current owner (Property.with_owner applied in get_property). -/
structure OwnedProperty where
  cost : Money
  rent : Money
  owner : Option PlayerId
deriving DecidableEq, Repr

/-- InMemoryPropertyRepository from
app/infrastructure/persistence/repositories.py: the fixed blueprint list and
the position-to-owner map (a dict keyed by 0..n-1 in the source, here a list
indexed the same way). -/
structure Repository where
  properties : List PropertyBlueprint
  owners : List (Option PlayerId)
deriving DecidableEq, Repr

/-- Repository constructor: all positions start unowned. -/
def Repository.mk_repo (props : List PropertyBlueprint) : Repository :=
  ⟨props, List.replicate props.length none⟩

/-- Repository.size: the number of properties. -/
def Repository.size (r : Repository) : Nat := r.properties.length

/-- Blueprint stored at a position, when in range. -/
def Repository.blueprint_at (r : Repository) (pos : Nat) : Option PropertyBlueprint :=
  r.properties.get? pos

/-- Owner recorded at a position (the dict lookup; positions are only ever
accessed in range, where the constructor put a key). -/
def Repository.owner_at (r : Repository) (pos : Nat) : Option PlayerId :=
  r.owners.getD pos none

/-- InMemoryPropertyRepository.get_property: bounds-checked, then the
blueprint merged with the current owner. -/
def Repository.get_property (r : Repository) (pos : Int) : Option OwnedProperty :=
  if pos < 0 ∨ pos ≥ (r.properties.length : Int) then none
  else
    match r.properties.get? pos.toNat with
    | none => none
    | some bp => some ⟨bp.cost, bp.rent, r.owner_at pos.toNat⟩

/-- Unchecked write to the ownership map, used after the bounds check. -/
def Repository.set_owner_at (r : Repository) (pos : Nat) (pl : Option PlayerId) : Repository :=
  { r with owners := r.owners.set pos pl }

/-- InMemoryPropertyRepository.set_owner: bounds-checked against the property
list, then writes the ownership map entry. Raises (none) out of range. -/
def Repository.set_owner (r : Repository) (pos : Int) (pl : Option PlayerId) :
    Option Repository :=
  if pos < 0 ∨ pos ≥ (r.properties.length : Int) then none
  else some (r.set_owner_at pos.toNat pl)

/-- Mutable per-player state from the Player class in app/domain/models.py:
balance, position, owned-property list and the active flag. The name and the
strategy object are omitted; the strategy's should_buy answer enters the
engine as an explicit decision oracle, covering every strategy (including the
random one). -/
structure PlayerState where
  balance : Money
  position : Position
  properties : List PropertyBlueprint
  is_active : Bool
deriving DecidableEq, Repr

/-- Player.move from app/domain/models.py: validates steps, board size and
salary, delegates to Position.move, credits the round salary exactly when the
round was completed, and stores the new position. -/
def PlayerState.move (p : PlayerState) (steps boardSize roundSalary : Int) :
    Option PlayerState :=
  if steps ≤ 0 then none
  else if boardSize ≤ 0 then none
  else if roundSalary < 0 then none
  else
    match p.position.move steps boardSize with
    | none => none
    | some (newPos, completedRound) =>
      some { p with
        position := newPos,
        balance := if completedRound then p.balance.add roundSalary else p.balance }

/-- Player.can_buy: validates the cost is a non-negative Money, then checks
the balance is sufficient. -/
def PlayerState.can_buy (p : PlayerState) (propertyCost : Money) : Option Bool :=
  if propertyCost.is_negative then none
  else some (p.balance.is_sufficient_for propertyCost)

/-- Player.buy_property: returns false when unaffordable; otherwise consults
the strategy (the shouldBuy oracle) and on acceptance debits the cost and
appends the property to the owned list. The returned Bool is the purchase
flag; ownership recording on the board is the caller's job. -/
def PlayerState.buy_property (p : PlayerState) (prop : OwnedProperty)
    (shouldBuy : Bool) : Option (Bool × PlayerState) :=
  match p.can_buy prop.cost with
  | none => none
  | some affordable =>
    if ¬affordable then some (false, p)
    else if shouldBuy then
      some (true, { p with
        balance := p.balance.subtractM prop.cost,
        properties := p.properties ++ [⟨prop.cost, prop.rent⟩] })
    else some (false, p)

/-- Player.pay_rent: validates the amount, debits the balance, and marks the
player inactive when the resulting balance is negative. -/
def PlayerState.pay_rent (p : PlayerState) (amount : Money) : Option PlayerState :=
  if amount.is_negative then none
  else
    let newBalance := p.balance.subtractM amount
    some { p with
      balance := newBalance,
      is_active := if newBalance.is_negative then false else p.is_active }

/-- Player.receive_rent: validates the amount and credits the balance
unconditionally. -/
def PlayerState.receive_rent (p : PlayerState) (amount : Money) : Option PlayerState :=
  if amount.is_negative then none
  else some { p with balance := p.balance.addM amount }

/-- Player.eliminate: marks the player inactive and hands back the owned
properties for release, clearing the list. -/
def PlayerState.eliminate (p : PlayerState) : List PropertyBlueprint × PlayerState :=
  (p.properties, { p with is_active := false, properties := [] })

/-- GameState from app/domain/models.py: roster, board repository, round
counter, round limit, winner and the termination flag. -/
structure GameState where
  players : List PlayerState
  board : Repository
  round_count : Nat
  max_rounds : Nat
  winner : Option PlayerId
  game_over : Bool
deriving DecidableEq, Repr

/-- Replace the state of one player, leaving the roster order unchanged
(the source mutates the Player object in place). -/
def GameState.setPlayer (s : GameState) (i : PlayerId) (p : PlayerState) : GameState :=
  { s with players := s.players.set i p }

/-- GameState.get_active_players, keeping each player's roster index. -/
def GameState.active_players (s : GameState) : List (PlayerId × PlayerState) :=
  (s.players.enum).filter (fun x => x.2.is_active)

/-- The literal fold performed by the builtin max(iterable, key=...) call in
check_victory_condition: scan left to right, replacing the current best only
on a strictly larger key, so ties keep the earliest element. -/
def pyMaxBy {α : Type} (key : α → Int) : List α → Option α
  | [] => none
  | x :: xs => some (xs.foldl (fun acc y => if key acc < key y then y else acc) x)

/-- GameState.check_victory_condition: early return when the game is already
over; one active player wins; zero active players is a draw; at the round
limit the active player with the highest balance wins (first on ties);
otherwise the game continues. Returns the flag together with the updated
state. -/
def GameState.check_victory_condition (s : GameState) : Bool × GameState :=
  if s.game_over then (true, s)
  else
    if s.active_players.length = 1 then
      (true, { s with winner := (s.active_players.head?).map Prod.fst, game_over := true })
    else if s.active_players.length = 0 then
      (true, { s with winner := none, game_over := true })
    else if s.round_count ≥ s.max_rounds then
      (true, { s with
        winner := (pyMaxBy (fun x => x.2.balance.amount) s.active_players).map Prod.fst,
        game_over := true })
    else (false, s)

/-- GameState.increment_round. -/
def GameState.increment_round (s : GameState) : GameState :=
  { s with round_count := s.round_count + 1 }

/-- GameConfig.ROUND_SALARY from app/core/config.py. -/
def ROUND_SALARY : Int := 100

/-- GameEngine._handle_property_landing: an unowned property triggers a
purchase attempt (recording ownership on the board on success); a property
owned by a different player makes the lander pay rent, credited to the owner
only while the owner is still active; landing on an own property does
nothing. The shouldBuy flag is the strategy's answer, consulted only in the
purchase branch. -/
def handle_landing (s : GameState) (i : PlayerId) (prop : OwnedProperty)
    (shouldBuy : Bool) : Option GameState :=
  match s.players.get? i with
  | none => none
  | some p =>
    match prop.owner with
    | none =>
      match p.buy_property prop shouldBuy with
      | none => none
      | some (purchased, p1) =>
        if purchased then
          match (s.setPlayer i p1).board.set_owner (p1.position.value : Int) (some i) with
          | none => none
          | some b1 => some { s.setPlayer i p1 with board := b1 }
        else some (s.setPlayer i p1)
    | some j =>
      if j ≠ i then
        match p.pay_rent prop.rent with
        | none => none
        | some p1 =>
          match (s.setPlayer i p1).players.get? j with
          | none => none
          | some q =>
            if q.is_active then
              match q.receive_rent prop.rent with
              | none => none
              | some q1 => some ((s.setPlayer i p1).setPlayer j q1)
            else some (s.setPlayer i p1)
      else some s

/-- One iteration of the property-release loop in GameEngine.play_turn: scan
the board positions in order for the first property whose cost and rent equal
the released blueprint, reset that position's ownership to none, and stop. -/
def release_one (st : GameState) (bp : PropertyBlueprint) : GameState :=
  match (List.range st.board.size).find?
      (fun pos => st.board.blueprint_at pos == some bp) with
  | some pos => { st with board := st.board.set_owner_at pos none }
  | none => st

/-- The elimination block at the end of GameEngine.play_turn: eliminate the
player, then release each returned property via the (cost, rent) scan. -/
def eliminate_and_release (s : GameState) (i : PlayerId) (p : PlayerState) :
    GameState :=
  (p.eliminate).1.foldl release_one (s.setPlayer i (p.eliminate).2)

/-- GameEngine.play_turn: no-op for an inactive player; otherwise move by the
rolled steps (the steps argument is the injected dice outcome), resolve the
landing, and eliminate-and-release when the balance ended negative. -/
def play_turn (s : GameState) (i : PlayerId) (steps : Int) (shouldBuy : Bool) :
    Option GameState :=
  match s.players.get? i with
  | none => none
  | some p =>
    if ¬p.is_active then some s
    else
      match p.move steps (s.board.size : Int) ROUND_SALARY with
      | none => none
      | some p1 =>
        match (s.setPlayer i p1).board.get_property (p1.position.value : Int) with
        | none => none
        | some prop =>
          match handle_landing (s.setPlayer i p1) i prop shouldBuy with
          | none => none
          | some s2 =>
            match s2.players.get? i with
            | none => none
            | some p2 =>
              if p2.balance.is_negative then some (eliminate_and_release s2 i p2)
              else some s2

/-- The turn loop inside GameEngine.play_round: give each snapshotted active
player a turn in roster order. The oracles give the dice roll and the
purchase decision for the k-th turn of the round. -/
def play_turns (dice : Nat → Int) (buys : Nat → Bool) :
    GameState → List PlayerId → Nat → Option GameState
  | s, [], _ => some s
  | s, i :: rest, k =>
    match play_turn s i (dice k) (buys k) with
    | none => none
    | some s1 => play_turns dice buys s1 rest (k + 1)

/-- GameEngine.play_round: snapshot the active players, run their turns, then
increment the round counter. -/
def play_round (s : GameState) (dice : Nat → Int) (buys : Nat → Bool) :
    Option GameState :=
  match play_turns dice buys s ((s.active_players).map Prod.fst) 0 with
  | none => none
  | some s1 => some s1.increment_round

/-- GameEngine.play_game: repeat play_round followed by the victory check
until the game is over. The source's while loop terminates because the round
counter grows past max_rounds; here the bound is an explicit fuel, with none
returned only when fuel runs out before termination. The oracle families are
indexed by the round counter at the start of each round. -/
def play_game (fuel : Nat) (s : GameState) (dice : Nat → Nat → Int)
    (buys : Nat → Nat → Bool) : Option GameState :=
  match fuel with
  | 0 => if s.game_over then some s else none
  | fuel' + 1 =>
    if s.game_over then some s
    else
      match play_round s (dice s.round_count) (buys s.round_count) with
      | none => none
      | some s1 => play_game fuel' (s1.check_victory_condition).2 dice buys

/-- One row of the strategy_statistics list built by
GameSimulator._aggregate_strategy_statistics; the two Python float divisions
are carried out exactly in ℚ. -/
structure StrategyStats where
  strategy : String
  wins : Nat
  win_rate : ℚ
  timeouts : Nat
  avg_rounds_when_won : ℚ
deriving DecidableEq, Repr

/-- The fixed strategy-name order iterated by
_aggregate_strategy_statistics. -/
def STRATEGY_NAMES : List String := ["impulsive", "demanding", "cautious", "random"]

/-- GameSimulator._aggregate_strategy_statistics: one row per strategy name,
in the fixed order. The wins and rounds inputs are total functions, matching
the defaultdict lookups (missing keys read as 0 and []); the average rounds
when won is sum/length for a non-empty round list and 0 otherwise. -/
def aggregate_strategy_statistics (strategy_wins : String → Nat)
    (strategy_rounds_when_won : String → List Nat) (num_simulations : Nat)
    (total_timeouts : Nat) : List StrategyStats :=
  STRATEGY_NAMES.map (fun strat =>
    let wins := strategy_wins strat
    let rounds_list := strategy_rounds_when_won strat
    { strategy := strat,
      wins := wins,
      win_rate := (wins : ℚ) / (num_simulations : ℚ),
      timeouts := total_timeouts,
      avg_rounds_when_won :=
        if rounds_list.isEmpty then 0
        else (rounds_list.sum : ℚ) / (rounds_list.length : ℚ) })

/-- GameSimulator._calculate_worker_chunks: integer division of the
simulation count by the worker count, with the remainder added one by one to
the first chunks. -/
def calculate_worker_chunks (num_simulations num_workers : Nat) : List Nat :=
  let simulations_per_worker := num_simulations / num_workers
  let remainder := num_simulations % num_workers
  (List.range num_workers).map
    (fun i => simulations_per_worker + if i < remainder then 1 else 0)

section Claims

/-- Sum of the chunk sizes handed to the first w workers. -/
lemma sum_chunk_map (w q r : Nat) :
    ((List.range w).map (fun i => q + if i < r then 1 else 0)).sum = w * q + min r w := by
  induction w with
  | zero => simp
  | succ n ih =>
    rw [List.range_succ, List.map_append, List.sum_append, ih]
    simp only [List.map_cons, List.map_nil, List.sum_cons, List.sum_nil]
    rw [Nat.succ_mul]
    split_ifs <;> omega

/-- C4: for all steps > 0 and boardSize > 0, Position.move returns
((value+steps) mod boardSize, completedRound) with the new value in
[0, boardSize), and completedRound holds iff the new value is less than the
old value or old value + steps >= boardSize; for steps <= 0 or
boardSize <= 0 it fails with an invalid-move error. -/
theorem position_move_spec (p : Position) (steps boardSize : Int) :
    (0 < steps → 0 < boardSize →
      ∃ q compl, p.move steps boardSize = some (q, compl) ∧
        (q.value : Int) = ((p.value : Int) + steps) % boardSize ∧
        (q.value : Int) < boardSize ∧
        (compl = true ↔ (q.value < p.value ∨ (boardSize : Int) ≤ (p.value : Int) + steps))) ∧
    (steps ≤ 0 ∨ boardSize ≤ 0 → p.move steps boardSize = none) := by
  constructor
  · intro hs hb
    have hs' : ¬steps ≤ 0 := by omega
    have hb' : ¬boardSize ≤ 0 := by omega
    have hsn : ((steps.toNat : Nat) : Int) = steps := Int.toNat_of_nonneg (by omega)
    have hbn : ((boardSize.toNat : Nat) : Int) = boardSize := Int.toNat_of_nonneg (by omega)
    have hbpos : 0 < boardSize.toNat := by omega
    refine ⟨⟨(p.value + steps.toNat) % boardSize.toNat⟩,
      (decide ((p.value + steps.toNat) % boardSize.toNat < p.value) ||
        decide (p.value + steps.toNat ≥ boardSize.toNat)), ?_, ?_, ?_, ?_⟩
    · simp [Position.move, hs', hb']
    · have key : ((((p.value + steps.toNat) % boardSize.toNat : Nat)) : Int)
          = (((p.value + steps.toNat : Nat)) : Int) % ((boardSize.toNat : Nat) : Int) := by
        push_cast
        ring
      rw [key, Nat.cast_add, hsn, hbn]
    · show ((((p.value + steps.toNat) % boardSize.toNat : Nat)) : Int) < boardSize
      have := Nat.mod_lt (p.value + steps.toNat) hbpos
      omega
    · simp only [Bool.or_eq_true, decide_eq_true_eq]
      constructor
      · intro h
        rcases h with h | h
        · exact Or.inl h
        · exact Or.inr (by omega)
      · intro h
        rcases h with h | h
        · exact Or.inl h
        · exact Or.inr (by omega)
  · intro h
    rcases h with h | h
    · simp [Position.move, h]
    · rcases em (steps ≤ 0) with h2 | h2 <;> simp [Position.move, h, h2]

/-- Witness for C4: moving from position 18 by 3 on a board of 20 wraps to 1
with a completed round, and step count 0 is rejected. -/
theorem position_move_spec_witness :
    (∃ q compl, Position.move ⟨18⟩ 3 20 = some (q, compl) ∧
      (q.value : Int) = ((18 : Int) + 3) % 20 ∧
      (q.value : Int) < 20 ∧
      (compl = true ↔ (q.value < 18 ∨ (20 : Int) ≤ (18 : Int) + 3))) ∧
    Position.move ⟨18⟩ 0 20 = none :=
  ⟨(position_move_spec ⟨18⟩ 3 20).1 (by decide) (by decide),
   (position_move_spec ⟨18⟩ 0 20).2 (Or.inl (by decide))⟩

/-- C6: for valid arguments, Player.move delegates to Position.move, credits
the round salary exactly when the round was completed and otherwise leaves
the balance unchanged, and stores the returned new position. -/
theorem player_move_spec (p : PlayerState) (steps boardSize roundSalary : Int)
    (hs : 0 < steps) (hb : 0 < boardSize) (hr : 0 ≤ roundSalary) :
    ∃ q compl, p.position.move steps boardSize = some (q, compl) ∧
      p.move steps boardSize roundSalary = some
        { p with position := q,
                 balance := if compl then p.balance.add roundSalary else p.balance } := by
  have hs' : ¬steps ≤ 0 := by omega
  have hb' : ¬boardSize ≤ 0 := by omega
  have hr' : ¬roundSalary < 0 := by omega
  refine ⟨⟨(p.position.value + steps.toNat) % boardSize.toNat⟩,
    (decide ((p.position.value + steps.toNat) % boardSize.toNat < p.position.value) ||
      decide (p.position.value + steps.toNat ≥ boardSize.toNat)), ?_, ?_⟩
  · simp [Position.move, hs', hb']
  · simp [PlayerState.move, Position.move, hs', hb', hr']

/-- Witness for C6: a player at position 17 with balance 10 stepping 3 on a
board of 20 completes the round and is credited the salary of 100. -/
theorem player_move_spec_witness :
    ∃ q compl,
      Position.move ⟨17⟩ 3 20 = some (q, compl) ∧
      PlayerState.move ⟨⟨10⟩, ⟨17⟩, [], true⟩ 3 20 100 = some
        { balance := if compl then Money.add ⟨10⟩ 100 else ⟨10⟩,
          position := q, properties := [], is_active := true } :=
  player_move_spec ⟨⟨10⟩, ⟨17⟩, [], true⟩ 3 20 100 (by decide) (by decide) (by decide)

/-- C8: the worker-chunk computation yields exactly workers chunks summing to
count, each chunk being count/workers or count/workers + 1, with the larger
chunks exactly at the first count mod workers indices. -/
theorem worker_chunks_spec (count workers : Nat) (hc : 0 < count) (hw : 0 < workers) :
    (calculate_worker_chunks count workers).length = workers ∧
    (calculate_worker_chunks count workers).sum = count ∧
    ∀ i, i < workers →
      (calculate_worker_chunks count workers).get? i =
        some (if i < count % workers then count / workers + 1 else count / workers) := by
  refine ⟨by simp [calculate_worker_chunks], ?_, ?_⟩
  · simp only [calculate_worker_chunks]
    rw [sum_chunk_map]
    have h1 := Nat.div_add_mod count workers
    have h2 : count % workers < workers := Nat.mod_lt _ hw
    omega
  · intro i hi
    simp only [calculate_worker_chunks, List.get?_eq_getElem?, List.getElem?_map,
      List.getElem?_range hi, Option.map_some]
    split_ifs <;> simp_all

/-- Witness for C8: 10 simulations over 4 workers split as 3, 3, 2, 2. -/
theorem worker_chunks_spec_witness :
    (calculate_worker_chunks 10 4).length = 4 ∧
    (calculate_worker_chunks 10 4).sum = 10 ∧
    ∀ i, i < 4 →
      (calculate_worker_chunks 10 4).get? i =
        some (if i < 10 % 4 then 10 / 4 + 1 else 10 / 4) :=
  worker_chunks_spec 10 4 (by decide) (by decide)

/-- C9: for an in-range position, set_owner succeeds and rewrites exactly the
ownership entry at that position, leaving every other position's owner and
the whole blueprint list (costs, rents, ordering, board size) unchanged; an
out-of-range position is a bounds error (modelled as none, the repository
being left untouched by construction). -/
theorem set_owner_frame (r : Repository) (pos : Int) (x : Option PlayerId)
    (hlen : r.owners.length = r.properties.length) :
    (0 ≤ pos ∧ pos < (r.properties.length : Int) →
      ∃ r2, r.set_owner pos x = some r2 ∧
        r2.properties = r.properties ∧
        r2.owner_at pos.toNat = x ∧
        (∀ j, j ≠ pos.toNat → r2.owner_at j = r.owner_at j)) ∧
    (pos < 0 ∨ (r.properties.length : Int) ≤ pos → r.set_owner pos x = none) := by
  constructor
  · rintro ⟨h0, hlt⟩
    have hrange : ¬(pos < 0 ∨ pos ≥ (r.properties.length : Int)) := by omega
    refine ⟨r.set_owner_at pos.toNat x, by simp [Repository.set_owner, hrange], rfl, ?_, ?_⟩
    · have hbound : pos.toNat < r.owners.length := by omega
      simp only [Repository.set_owner_at, Repository.owner_at, List.getD,
        List.get?_eq_getElem?, List.getElem?_set_self, hbound]
      simp [hbound]
    · intro j hj
      simp [Repository.set_owner_at, Repository.owner_at, List.getD,
        List.get?_eq_getElem?, List.getElem?_set_ne (Ne.symm hj)]
  · intro h
    have hrange : pos < 0 ∨ pos ≥ (r.properties.length : Int) := by omega
    simp [Repository.set_owner, hrange]

/-- Witness for C9: on a two-property repository, setting the owner of
position 1 changes only that entry, and position 5 is out of range. -/
theorem set_owner_frame_witness :
    (∃ r2,
      Repository.set_owner ⟨[⟨⟨50⟩, ⟨10⟩⟩, ⟨⟨60⟩, ⟨20⟩⟩], [none, none]⟩ 1 (some 0) = some r2 ∧
      r2.properties = [⟨⟨50⟩, ⟨10⟩⟩, ⟨⟨60⟩, ⟨20⟩⟩] ∧
      r2.owner_at (1 : Int).toNat = some 0 ∧
      (∀ j, j ≠ (1 : Int).toNat → r2.owner_at j =
        Repository.owner_at ⟨[⟨⟨50⟩, ⟨10⟩⟩, ⟨⟨60⟩, ⟨20⟩⟩], [none, none]⟩ j)) ∧
    Repository.set_owner ⟨[⟨⟨50⟩, ⟨10⟩⟩, ⟨⟨60⟩, ⟨20⟩⟩], [none, none]⟩ 5 (some 0) = none :=
  ⟨(set_owner_frame ⟨[⟨⟨50⟩, ⟨10⟩⟩, ⟨⟨60⟩, ⟨20⟩⟩], [none, none]⟩ 1 (some 0) rfl).1
      ⟨by decide, by decide⟩,
   (set_owner_frame ⟨[⟨⟨50⟩, ⟨10⟩⟩, ⟨⟨60⟩, ⟨20⟩⟩], [none, none]⟩ 5 (some 0) rfl).2
      (Or.inr (by decide))⟩

/-- C5: once gameOver is true the state is terminal: the victory check
returns true with the state unchanged (winner, round count, players and
board untouched), and play_game performs no further round, returning the
state as is for any fuel and any oracles. -/
theorem terminal_state_spec (s : GameState) (h : s.game_over = true) :
    s.check_victory_condition = (true, s) ∧
    ∀ fuel dice buys, play_game fuel s dice buys = some s := by
  constructor
  · simp [GameState.check_victory_condition, h]
  · intro fuel dice buys
    cases fuel <;> simp [play_game, h]

/-- Witness for C5: a concrete finished two-player game is left untouched by
the victory check and by play_game. -/
theorem terminal_state_spec_witness :
    GameState.check_victory_condition
        ⟨[⟨⟨300⟩, ⟨0⟩, [], true⟩], Repository.mk_repo [⟨⟨50⟩, ⟨10⟩⟩], 3, 1000, some 0, true⟩ =
      (true, ⟨[⟨⟨300⟩, ⟨0⟩, [], true⟩], Repository.mk_repo [⟨⟨50⟩, ⟨10⟩⟩], 3, 1000, some 0, true⟩) ∧
    ∀ fuel dice buys,
      play_game fuel
        ⟨[⟨⟨300⟩, ⟨0⟩, [], true⟩], Repository.mk_repo [⟨⟨50⟩, ⟨10⟩⟩], 3, 1000, some 0, true⟩
        dice buys =
      some ⟨[⟨⟨300⟩, ⟨0⟩, [], true⟩], Repository.mk_repo [⟨⟨50⟩, ⟨10⟩⟩], 3, 1000, some 0, true⟩ :=
  terminal_state_spec
    ⟨[⟨⟨300⟩, ⟨0⟩, [], true⟩], Repository.mk_repo [⟨⟨50⟩, ⟨10⟩⟩], 3, 1000, some 0, true⟩ rfl

/-- C7 counterexample: feeding the aggregator a zero win count together with
a non-empty rounds-when-won list for the impulsive strategy yields an entry
with wins = 0 but avgRoundsWhenWon = 5, because the average is computed from
the rounds list alone; so over arbitrary inputs zero wins does not force a
zero average. -/
theorem aggregate_zero_wins_counterexample :
    ((aggregate_strategy_statistics (fun _ => 0)
        (fun s => if s = "impulsive" then [5] else []) 1 0).head?).map
      (fun e => (e.wins, e.avg_rounds_when_won)) = some (0, 5) := by
  norm_num [aggregate_strategy_statistics, STRATEGY_NAMES]

/-- C7 (amended): the strategy statistics always contain exactly 4 entries,
one per strategy name in the fixed order, regardless of win counts; and
whenever each strategy's rounds-when-won list has exactly as many entries as
its win count — which the simulation pipeline guarantees, a win always
appending one round count — every entry with zero wins reports an average
rounds-when-won of 0. -/
theorem aggregate_strategy_statistics_spec (wins : String → Nat)
    (rounds : String → List Nat) (numSims totalTimeouts : Nat)
    (hpos : 0 < numSims)
    (hcons : ∀ strat, (rounds strat).length = wins strat) :
    (aggregate_strategy_statistics wins rounds numSims totalTimeouts).length = 4 ∧
    (aggregate_strategy_statistics wins rounds numSims totalTimeouts).map
        (fun e => e.strategy) = STRATEGY_NAMES ∧
    ∀ e ∈ aggregate_strategy_statistics wins rounds numSims totalTimeouts,
      e.wins = 0 → e.avg_rounds_when_won = 0 := by
  refine ⟨by simp [aggregate_strategy_statistics, STRATEGY_NAMES],
    by simp [aggregate_strategy_statistics, STRATEGY_NAMES], ?_⟩
  intro e he h0
  simp only [aggregate_strategy_statistics, List.mem_map] at he
  obtain ⟨strat, hstrat, rfl⟩ := he
  simp only at h0 ⊢
  have hnil : rounds strat = [] := List.eq_nil_of_length_eq_zero (by rw [hcons strat, h0])
  simp [hnil]

/-- Witness for C7: a consistent input (two impulsive wins in rounds 3 and 7,
nothing else) produces the 4 fixed entries, and the three zero-win entries
report average 0. -/
theorem aggregate_strategy_statistics_spec_witness :
    (aggregate_strategy_statistics (fun s => if s = "impulsive" then 2 else 0)
        (fun s => if s = "impulsive" then [3, 7] else []) 2 0).length = 4 ∧
    (aggregate_strategy_statistics (fun s => if s = "impulsive" then 2 else 0)
        (fun s => if s = "impulsive" then [3, 7] else []) 2 0).map
        (fun e => e.strategy) = STRATEGY_NAMES ∧
    ∀ e ∈ aggregate_strategy_statistics (fun s => if s = "impulsive" then 2 else 0)
        (fun s => if s = "impulsive" then [3, 7] else []) 2 0,
      e.wins = 0 → e.avg_rounds_when_won = 0 :=
  aggregate_strategy_statistics_spec
    (fun s => if s = "impulsive" then 2 else 0)
    (fun s => if s = "impulsive" then [3, 7] else []) 2 0 (by decide)
    (fun strat => by by_cases h : strat = "impulsive" <;> simp [h])

/-- Folding the builtin-max step from a some accumulator agrees with folding
the bare step function. -/
lemma foldl_argAux_some {α : Type} (key : α → Int) (xs : List α) :
    ∀ x, xs.foldl (List.argAux fun b c => key c < key b) (some x) =
      some (xs.foldl (fun acc y => if key acc < key y then y else acc) x) := by
  induction xs with
  | nil => intro x; rfl
  | cons y ys ih =>
    intro x
    rw [List.foldl_cons, List.foldl_cons]
    have harg : List.argAux (fun b c => key c < key b) (some x) y =
        some (if key x < key y then y else x) := by
      simp only [List.argAux]
      split_ifs <;> rfl
    rw [harg]
    exact ih _

/-- The left-to-right strictly-greater scan performed by the builtin max is
exactly List.argmax, which keeps the earliest element on ties. -/
lemma pyMaxBy_eq_argmax {α : Type} (key : α → Int) (l : List α) :
    pyMaxBy key l = l.argmax key := by
  cases l with
  | nil => rfl
  | cons x xs =>
    show some _ = (x :: xs).foldl (List.argAux fun b c => key c < key b) none
    rw [List.foldl_cons]
    exact (foldl_argAux_some key xs x).symm

/-- C3: in a non-terminal state at or past the round limit with at least two
active players, the victory check returns true, marks the game over, and
crowns the active player with maximal balance, the first such player in
roster order when several share the maximum. -/
theorem timeout_victory_spec (s : GameState)
    (hgo : s.game_over = false)
    (hr : s.max_rounds ≤ s.round_count)
    (hn : 2 ≤ s.active_players.length) :
    (s.check_victory_condition).1 = true ∧
    (s.check_victory_condition).2.game_over = true ∧
    ∃ m ∈ s.active_players,
      (s.check_victory_condition).2.winner = some m.1 ∧
      (∀ a ∈ s.active_players, a.2.balance.amount ≤ m.2.balance.amount) ∧
      (∀ a ∈ s.active_players, m.2.balance.amount ≤ a.2.balance.amount →
        @List.indexOf _ instBEqOfDecidableEq m s.active_players ≤
          @List.indexOf _ instBEqOfDecidableEq a s.active_players) := by
  have h1 : ¬s.active_players.length = 1 := by omega
  have h0 : ¬s.active_players.length = 0 := by omega
  have hcheck : s.check_victory_condition = (true, { s with
      winner := (pyMaxBy (fun x => x.2.balance.amount) s.active_players).map Prod.fst,
      game_over := true }) := by
    simp [GameState.check_victory_condition, hgo, h1, h0, hr]
  rw [hcheck]
  have hne : s.active_players ≠ [] := by
    intro h
    rw [h] at hn
    simp at hn
  rw [pyMaxBy_eq_argmax]
  obtain ⟨m, hm⟩ : ∃ m, s.active_players.argmax (fun x => x.2.balance.amount) = some m := by
    cases h : s.active_players.argmax (fun x => x.2.balance.amount) with
    | none => exact absurd (List.argmax_eq_none.mp h) hne
    | some m => exact ⟨m, rfl⟩
  rw [hm]
  have hspec := List.argmax_eq_some_iff.mp hm
  exact ⟨rfl, rfl, m, hspec.1, rfl, hspec.2.1, hspec.2.2⟩

/-- Witness for C3: two active players with balances 100 and 200 at the round
limit; the check crowns the richer one. -/
theorem timeout_victory_spec_witness :
    (GameState.check_victory_condition
      ⟨[⟨⟨100⟩, ⟨0⟩, [], true⟩, ⟨⟨200⟩, ⟨0⟩, [], true⟩],
        Repository.mk_repo [⟨⟨50⟩, ⟨10⟩⟩], 5, 5, none, false⟩).1 = true ∧
    (GameState.check_victory_condition
      ⟨[⟨⟨100⟩, ⟨0⟩, [], true⟩, ⟨⟨200⟩, ⟨0⟩, [], true⟩],
        Repository.mk_repo [⟨⟨50⟩, ⟨10⟩⟩], 5, 5, none, false⟩).2.game_over = true ∧
    ∃ m ∈ GameState.active_players
        ⟨[⟨⟨100⟩, ⟨0⟩, [], true⟩, ⟨⟨200⟩, ⟨0⟩, [], true⟩],
          Repository.mk_repo [⟨⟨50⟩, ⟨10⟩⟩], 5, 5, none, false⟩,
      (GameState.check_victory_condition
        ⟨[⟨⟨100⟩, ⟨0⟩, [], true⟩, ⟨⟨200⟩, ⟨0⟩, [], true⟩],
          Repository.mk_repo [⟨⟨50⟩, ⟨10⟩⟩], 5, 5, none, false⟩).2.winner = some m.1 ∧
      (∀ a ∈ GameState.active_players
          ⟨[⟨⟨100⟩, ⟨0⟩, [], true⟩, ⟨⟨200⟩, ⟨0⟩, [], true⟩],
            Repository.mk_repo [⟨⟨50⟩, ⟨10⟩⟩], 5, 5, none, false⟩,
        a.2.balance.amount ≤ m.2.balance.amount) ∧
      (∀ a ∈ GameState.active_players
          ⟨[⟨⟨100⟩, ⟨0⟩, [], true⟩, ⟨⟨200⟩, ⟨0⟩, [], true⟩],
            Repository.mk_repo [⟨⟨50⟩, ⟨10⟩⟩], 5, 5, none, false⟩,
        m.2.balance.amount ≤ a.2.balance.amount →
          @List.indexOf _ instBEqOfDecidableEq m (GameState.active_players
            ⟨[⟨⟨100⟩, ⟨0⟩, [], true⟩, ⟨⟨200⟩, ⟨0⟩, [], true⟩],
              Repository.mk_repo [⟨⟨50⟩, ⟨10⟩⟩], 5, 5, none, false⟩) ≤
          @List.indexOf _ instBEqOfDecidableEq a (GameState.active_players
            ⟨[⟨⟨100⟩, ⟨0⟩, [], true⟩, ⟨⟨200⟩, ⟨0⟩, [], true⟩],
              Repository.mk_repo [⟨⟨50⟩, ⟨10⟩⟩], 5, 5, none, false⟩)) :=
  timeout_victory_spec
    ⟨[⟨⟨100⟩, ⟨0⟩, [], true⟩, ⟨⟨200⟩, ⟨0⟩, [], true⟩],
      Repository.mk_repo [⟨⟨50⟩, ⟨10⟩⟩], 5, 5, none, false⟩
    rfl (by decide) (by decide)

/-- Replacing a player's state keeps the roster length. -/
lemma setPlayer_players_length (s : GameState) (i : PlayerId) (p : PlayerState) :
    (s.setPlayer i p).players.length = s.players.length := by
  simp [GameState.setPlayer]

/-- Reading back the player just written. -/
lemma setPlayer_get_self (s : GameState) (i : PlayerId) (p : PlayerState)
    (h : i < s.players.length) : (s.setPlayer i p).players.get? i = some p := by
  simp [GameState.setPlayer, List.get?_eq_getElem?, List.getElem?_set_self, h]

/-- Writing one player leaves every other roster slot unchanged. -/
lemma setPlayer_get_ne (s : GameState) (i j : PlayerId) (p : PlayerState)
    (h : i ≠ j) : (s.setPlayer i p).players.get? j = s.players.get? j := by
  simp [GameState.setPlayer, List.get?_eq_getElem?, List.getElem?_set_ne h]

/-- C2: landing on a property owned by a different player debits the
property's rent from the lander's balance unconditionally, and credits the
owner's balance by the same rent exactly when the owner is still active at
that moment — rent paid to an inactive owner leaves the owner's state
untouched, so the money is lost. -/
theorem rent_payment_spec (s : GameState) (i j : PlayerId) (p q : PlayerState)
    (prop : OwnedProperty) (dec : Bool) (s2 : GameState)
    (hp : s.players.get? i = some p) (hq : s.players.get? j = some q)
    (hown : prop.owner = some j) (hne : j ≠ i)
    (hrun : handle_landing s i prop dec = some s2) :
    (s2.players.get? i).map (fun x => x.balance) = some (p.balance.subtractM prop.rent) ∧
    (q.is_active = true →
      (s2.players.get? j).map (fun x => x.balance) = some (q.balance.addM prop.rent)) ∧
    (q.is_active = false → s2.players.get? j = some q) := by
  have hij : i ≠ j := fun h => hne h.symm
  have hilen : i < s.players.length := (List.get?_eq_some.mp hp).1
  have hjlen : j < s.players.length := (List.get?_eq_some.mp hq).1
  simp only [handle_landing, hp, hown] at hrun
  rw [if_pos hne] at hrun
  simp only [PlayerState.pay_rent] at hrun
  cases hneg : prop.rent.is_negative with
  | true => rw [hneg] at hrun; simp at hrun
  | false =>
    rw [hneg] at hrun
    simp only [Bool.false_eq_true, if_false] at hrun
    rw [setPlayer_get_ne _ _ _ _ hij] at hrun
    simp only [hq] at hrun
    cases hact : q.is_active with
    | false =>
      rw [hact] at hrun
      simp only [Bool.false_eq_true, if_false, Option.some.injEq] at hrun
      subst hrun
      refine ⟨?_, by simp [hact], ?_⟩
      · rw [setPlayer_get_self _ _ _ hilen]
        rfl
      · intro _
        rw [setPlayer_get_ne _ _ _ _ hij, hq]
    | true =>
      rw [hact] at hrun
      simp only [if_true, PlayerState.receive_rent, hneg, Bool.false_eq_true, if_false,
        Option.some.injEq] at hrun
      subst hrun
      refine ⟨?_, ?_, by simp [hact]⟩
      · rw [setPlayer_get_ne _ _ _ _ hne, setPlayer_get_self _ _ _ hilen]
        rfl
      · intro _
        rw [setPlayer_get_self]
        · rfl
        · rw [setPlayer_players_length]
          exact hjlen

/-- Witness for C2: player 0 lands on player 1's property with rent 60;
the payer is debited 60 and the active owner credited 60. -/
theorem rent_payment_spec_witness :
    (GameState.players
        ⟨[⟨⟨40⟩, ⟨1⟩, [], true⟩, ⟨⟨260⟩, ⟨0⟩, [⟨⟨80⟩, ⟨60⟩⟩], true⟩],
          ⟨[⟨⟨50⟩, ⟨10⟩⟩, ⟨⟨80⟩, ⟨60⟩⟩], [none, some 1]⟩, 0, 1000, none, false⟩ |>.get? 0
      |>.map (fun x => x.balance)) = some (Money.subtractM ⟨100⟩ ⟨60⟩) ∧
    (true = true →
      (GameState.players
          ⟨[⟨⟨40⟩, ⟨1⟩, [], true⟩, ⟨⟨260⟩, ⟨0⟩, [⟨⟨80⟩, ⟨60⟩⟩], true⟩],
            ⟨[⟨⟨50⟩, ⟨10⟩⟩, ⟨⟨80⟩, ⟨60⟩⟩], [none, some 1]⟩, 0, 1000, none, false⟩ |>.get? 1
        |>.map (fun x => x.balance)) = some (Money.addM ⟨200⟩ ⟨60⟩)) ∧
    (true = false →
      (GameState.players
          ⟨[⟨⟨40⟩, ⟨1⟩, [], true⟩, ⟨⟨260⟩, ⟨0⟩, [⟨⟨80⟩, ⟨60⟩⟩], true⟩],
            ⟨[⟨⟨50⟩, ⟨10⟩⟩, ⟨⟨80⟩, ⟨60⟩⟩], [none, some 1]⟩, 0, 1000, none, false⟩ |>.get? 1) =
        some ⟨⟨200⟩, ⟨0⟩, [⟨⟨80⟩, ⟨60⟩⟩], true⟩) :=
  rent_payment_spec
    ⟨[⟨⟨100⟩, ⟨1⟩, [], true⟩, ⟨⟨200⟩, ⟨0⟩, [⟨⟨80⟩, ⟨60⟩⟩], true⟩],
      ⟨[⟨⟨50⟩, ⟨10⟩⟩, ⟨⟨80⟩, ⟨60⟩⟩], [none, some 1]⟩, 0, 1000, none, false⟩
    0 1 ⟨⟨100⟩, ⟨1⟩, [], true⟩ ⟨⟨200⟩, ⟨0⟩, [⟨⟨80⟩, ⟨60⟩⟩], true⟩
    ⟨⟨80⟩, ⟨60⟩, some 1⟩ false
    ⟨[⟨⟨40⟩, ⟨1⟩, [], true⟩, ⟨⟨260⟩, ⟨0⟩, [⟨⟨80⟩, ⟨60⟩⟩], true⟩],
      ⟨[⟨⟨50⟩, ⟨10⟩⟩, ⟨⟨80⟩, ⟨60⟩⟩], [none, some 1]⟩, 0, 1000, none, false⟩
    (by decide) (by decide) (by decide) (by decide) (by decide)

/-- No player inactive in ps has become active again in qs. -/
def no_reactivation (ps qs : List PlayerState) : Prop :=
  qs.length = ps.length ∧
  ∀ j p q, ps.get? j = some p → qs.get? j = some q →
    p.is_active = false → q.is_active = false

lemma no_reactivation_refl (ps : List PlayerState) : no_reactivation ps ps := by
  refine ⟨rfl, ?_⟩
  intro j p q hp hq hfalse
  rw [hp] at hq
  cases hq
  exact hfalse

lemma no_reactivation_of_eq {ps qs : List PlayerState} (h : qs = ps) :
    no_reactivation ps qs := h ▸ no_reactivation_refl ps

lemma no_reactivation_trans {ps qs rs : List PlayerState}
    (h1 : no_reactivation ps qs) (h2 : no_reactivation qs rs) :
    no_reactivation ps rs := by
  refine ⟨h1.1 ▸ h2.1, ?_⟩
  intro j p r hp hr hfalse
  have hj : j < qs.length := by
    have ha := (List.get?_eq_some.mp hp).1
    have hb := h1.1
    omega
  obtain ⟨q, hq⟩ : ∃ q, qs.get? j = some q :=
    ⟨qs.get ⟨j, hj⟩, List.get?_eq_some.mpr ⟨hj, rfl⟩⟩
  exact h2.2 j q r hq hr (h1.2 j p q hp hq hfalse)

/-- Overwriting slot i with a state whose flag is at most the old one never
reactivates anyone. -/
lemma no_reactivation_set {ps : List PlayerState} {i : PlayerId} {p p1 : PlayerState}
    (hp : ps.get? i = some p)
    (hmono : p1.is_active = true → p.is_active = true) :
    no_reactivation ps (ps.set i p1) := by
  refine ⟨by simp, ?_⟩
  intro j a b ha hb hfalse
  by_cases hji : i = j
  · subst hji
    rw [hp] at ha
    cases ha
    have hset : (ps.set i p1).get? i = some p1 := by
      rw [List.get?_eq_getElem?, List.getElem?_set_self]
      simp [(List.get?_eq_some.mp hp).1]
    rw [hset] at hb
    cases hb
    cases h1 : p1.is_active with
    | false => rfl
    | true => exact absurd (hmono h1) (by rw [hfalse]; intro h; cases h)
  · rw [List.get?_eq_getElem?, List.getElem?_set_ne hji, ← List.get?_eq_getElem?, ha] at hb
    cases hb
    exact hfalse

/-- Player.move never changes the active flag or the owned-property list. -/
lemma move_fields {p p1 : PlayerState} {steps boardSize roundSalary : Int}
    (h : p.move steps boardSize roundSalary = some p1) :
    p1.is_active = p.is_active ∧ p1.properties = p.properties := by
  unfold PlayerState.move at h
  split at h
  · exact absurd h (by simp)
  split at h
  · exact absurd h (by simp)
  split at h
  · exact absurd h (by simp)
  split at h
  · exact absurd h (by simp)
  simp only [Option.some.injEq] at h
  subst h
  exact ⟨rfl, rfl⟩

/-- Player.buy_property never changes the active flag or the position, and
only ever appends the bought blueprint to the owned list. -/
lemma buy_property_fields {p p1 : PlayerState} {prop : OwnedProperty} {dec b : Bool}
    (h : p.buy_property prop dec = some (b, p1)) :
    p1.is_active = p.is_active ∧ p1.position = p.position ∧
    (p1.properties = p.properties ∨
      p1.properties = p.properties ++ [⟨prop.cost, prop.rent⟩]) := by
  unfold PlayerState.buy_property PlayerState.can_buy at h
  split at h
  · exact absurd h (by simp)
  next affordable heq =>
    split at heq
    · exact absurd heq (by simp)
    split at h
    · simp only [Option.some.injEq, Prod.mk.injEq] at h
      obtain ⟨-, h2⟩ := h
      subst h2
      exact ⟨rfl, rfl, Or.inl rfl⟩
    split at h
    · simp only [Option.some.injEq, Prod.mk.injEq] at h
      obtain ⟨-, h2⟩ := h
      subst h2
      exact ⟨rfl, rfl, Or.inr rfl⟩
    · simp only [Option.some.injEq, Prod.mk.injEq] at h
      obtain ⟨-, h2⟩ := h
      subst h2
      exact ⟨rfl, rfl, Or.inl rfl⟩

/-- Player.pay_rent can only lower the active flag, and leaves the position
and owned-property list untouched. -/
lemma pay_rent_fields {p p1 : PlayerState} {amount : Money}
    (h : p.pay_rent amount = some p1) :
    (p1.is_active = true → p.is_active = true) ∧ p1.position = p.position ∧
    p1.properties = p.properties ∧ p1.balance = p.balance.subtractM amount := by
  unfold PlayerState.pay_rent at h
  split at h
  · exact absurd h (by simp)
  · simp only [Option.some.injEq] at h
    subst h
    refine ⟨?_, rfl, rfl, rfl⟩
    intro hact
    simp only at hact
    split at hact
    · cases hact
    · exact hact

/-- Player.receive_rent changes only the balance. -/
lemma receive_rent_fields {p p1 : PlayerState} {amount : Money}
    (h : p.receive_rent amount = some p1) :
    p1.is_active = p.is_active ∧ p1.position = p.position ∧
    p1.properties = p.properties ∧ p1.balance = p.balance.addM amount := by
  unfold PlayerState.receive_rent at h
  split at h
  · exact absurd h (by simp)
  · simp only [Option.some.injEq] at h
    subst h
    exact ⟨rfl, rfl, rfl, rfl⟩

/-- The landing handler never reactivates a player. -/
lemma handle_landing_no_reactivation {s : GameState} {i : PlayerId}
    {prop : OwnedProperty} {dec : Bool} {s2 : GameState}
    (hrun : handle_landing s i prop dec = some s2) :
    no_reactivation s.players s2.players := by
  unfold handle_landing at hrun
  split at hrun
  · exact absurd hrun (by simp)
  next p hp =>
    split at hrun
    · -- unowned: purchase attempt
      split at hrun
      · exact absurd hrun (by simp)
      next b p1 hbuy =>
        have hmono : p1.is_active = true → p.is_active = true := by
          rw [(buy_property_fields hbuy).1]
          exact id
        split at hrun
        · split at hrun
          · exact absurd hrun (by simp)
          · simp only [Option.some.injEq] at hrun
            subst hrun
            exact no_reactivation_set hp hmono
        · simp only [Option.some.injEq] at hrun
          subst hrun
          exact no_reactivation_set hp hmono
    next j hj =>
      split at hrun
      next hne =>
        split at hrun
        · exact absurd hrun (by simp)
        next p1 hpay =>
          have h1 : no_reactivation s.players (s.setPlayer i p1).players :=
            no_reactivation_set hp (pay_rent_fields hpay).1
          split at hrun
          · exact absurd hrun (by simp)
          next q hq =>
            split at hrun
            · split at hrun
              · exact absurd hrun (by simp)
              next q1 hrecv =>
                simp only [Option.some.injEq] at hrun
                subst hrun
                refine no_reactivation_trans h1 (no_reactivation_set hq ?_)
                rw [(receive_rent_fields hrecv).1]
                exact id
            · simp only [Option.some.injEq] at hrun
              subst hrun
              exact h1
      · simp only [Option.some.injEq] at hrun
        subst hrun
        exact no_reactivation_refl _

/-- The release scan rewrites only the board, never the roster. -/
lemma release_one_players (st : GameState) (bp : PropertyBlueprint) :
    (release_one st bp).players = st.players := by
  unfold release_one
  split <;> rfl

/-- Folding the release scan over a list of blueprints leaves the roster
unchanged. -/
lemma release_fold_players (bps : List PropertyBlueprint) (st : GameState) :
    (bps.foldl release_one st).players = st.players := by
  induction bps generalizing st with
  | nil => rfl
  | cons bp rest ih => rw [List.foldl_cons, ih, release_one_players]

/-- A turn never reactivates a player. -/
lemma play_turn_no_reactivation {s : GameState} {i : PlayerId} {steps : Int}
    {dec : Bool} {s2 : GameState}
    (hrun : play_turn s i steps dec = some s2) :
    no_reactivation s.players s2.players := by
  unfold play_turn at hrun
  split at hrun
  · exact absurd hrun (by simp)
  next p hp =>
    split at hrun
    · simp only [Option.some.injEq] at hrun
      subst hrun
      exact no_reactivation_refl _
    · split at hrun
      · exact absurd hrun (by simp)
      next p1 hmove =>
        have h1 : no_reactivation s.players (s.setPlayer i p1).players :=
          no_reactivation_set hp (by rw [(move_fields hmove).1]; exact id)
        split at hrun
        · exact absurd hrun (by simp)
        next prop hprop =>
          split at hrun
          · exact absurd hrun (by simp)
          next s3 hland =>
            have h2 := no_reactivation_trans h1 (handle_landing_no_reactivation hland)
            split at hrun
            · exact absurd hrun (by simp)
            next p2 hp2 =>
              split at hrun
              · simp only [Option.some.injEq] at hrun
                subst hrun
                refine no_reactivation_trans h2 ?_
                unfold eliminate_and_release
                rw [release_fold_players]
                exact no_reactivation_set hp2 (by intro h; cases h)
              · simp only [Option.some.injEq] at hrun
                subst hrun
                exact h2

/-- The turn loop of a round never reactivates a player. -/
lemma play_turns_no_reactivation {ids : List PlayerId} {dice : Nat → Int}
    {buys : Nat → Bool} {s s2 : GameState} {k : Nat}
    (hrun : play_turns dice buys s ids k = some s2) :
    no_reactivation s.players s2.players := by
  induction ids generalizing s k with
  | nil =>
    simp only [play_turns, Option.some.injEq] at hrun
    subst hrun
    exact no_reactivation_refl _
  | cons i rest ih =>
    simp only [play_turns] at hrun
    split at hrun
    · exact absurd hrun (by simp)
    next s1 hturn =>
      exact no_reactivation_trans (play_turn_no_reactivation hturn) (ih hrun)

/-- A round never reactivates a player. -/
lemma play_round_no_reactivation {s s2 : GameState} {dice : Nat → Int}
    {buys : Nat → Bool}
    (hrun : play_round s dice buys = some s2) :
    no_reactivation s.players s2.players := by
  unfold play_round at hrun
  split at hrun
  · exact absurd hrun (by simp)
  next s1 hturns =>
    simp only [Option.some.injEq] at hrun
    subst hrun
    show no_reactivation s.players s1.players
    exact play_turns_no_reactivation hturns

/-- The victory check never touches the roster. -/
lemma check_victory_players (s : GameState) :
    (s.check_victory_condition).2.players = s.players := by
  unfold GameState.check_victory_condition
  repeat' split
  all_goals rfl

/-- A whole game never reactivates a player. -/
lemma play_game_no_reactivation {fuel : Nat} {s s2 : GameState}
    {dice : Nat → Nat → Int} {buys : Nat → Nat → Bool}
    (hrun : play_game fuel s dice buys = some s2) :
    no_reactivation s.players s2.players := by
  induction fuel generalizing s with
  | zero =>
    simp only [play_game] at hrun
    split at hrun
    · simp only [Option.some.injEq] at hrun
      subst hrun
      exact no_reactivation_refl _
    · exact absurd hrun (by simp)
  | succ n ih =>
    simp only [play_game] at hrun
    split at hrun
    · simp only [Option.some.injEq] at hrun
      subst hrun
      exact no_reactivation_refl _
    · split at hrun
      · exact absurd hrun (by simp)
      next s1 hround =>
        have h1 := play_round_no_reactivation hround
        have h2 := ih hrun
        rw [check_victory_players] at h2
        exact no_reactivation_trans h1 h2

/-- C10: player inactivity is permanent within a game. None of the player
operations (move, buy_property, pay_rent, receive_rent, eliminate) turns the
active flag from false to true, no engine operation (play_turn, play_round,
play_game) reactivates any player, and a turn given to an inactive player
returns the state completely unchanged. -/
theorem inactivity_permanent_spec :
    (∀ (p p1 : PlayerState) (steps boardSize roundSalary : Int),
      p.move steps boardSize roundSalary = some p1 → p1.is_active = p.is_active) ∧
    (∀ (p p1 : PlayerState) (prop : OwnedProperty) (dec b : Bool),
      p.buy_property prop dec = some (b, p1) → p1.is_active = p.is_active) ∧
    (∀ (p p1 : PlayerState) (amount : Money),
      p.pay_rent amount = some p1 → p1.is_active = true → p.is_active = true) ∧
    (∀ (p p1 : PlayerState) (amount : Money),
      p.receive_rent amount = some p1 → p1.is_active = p.is_active) ∧
    (∀ p : PlayerState, (p.eliminate).2.is_active = false) ∧
    (∀ (s s2 : GameState) (i : PlayerId) (steps : Int) (dec : Bool),
      play_turn s i steps dec = some s2 → no_reactivation s.players s2.players) ∧
    (∀ (s s2 : GameState) (dice : Nat → Int) (buys : Nat → Bool),
      play_round s dice buys = some s2 → no_reactivation s.players s2.players) ∧
    (∀ (fuel : Nat) (s s2 : GameState) (dice : Nat → Nat → Int) (buys : Nat → Nat → Bool),
      play_game fuel s dice buys = some s2 → no_reactivation s.players s2.players) ∧
    (∀ (s : GameState) (i : PlayerId) (p : PlayerState) (steps : Int) (dec : Bool),
      s.players.get? i = some p → p.is_active = false →
      play_turn s i steps dec = some s) := by
  refine ⟨fun p p1 st bs sal h => (move_fields h).1,
    fun p p1 prop dec b h => (buy_property_fields h).1,
    fun p p1 a h => (pay_rent_fields h).1,
    fun p p1 a h => (receive_rent_fields h).1,
    fun p => rfl,
    fun s s2 i st dec h => play_turn_no_reactivation h,
    fun s s2 dice buys h => play_round_no_reactivation h,
    fun fuel s s2 dice buys h => play_game_no_reactivation h,
    ?_⟩
  intro s i p steps dec hp hinact
  rw [List.get?_eq_getElem?] at hp
  simp [play_turn, hp, hinact]

/-- Witness for C10: a turn handed to the inactive player 0 of a concrete
two-player state returns the state unchanged. -/
theorem inactivity_permanent_spec_witness :
    play_turn
      ⟨[⟨⟨-5⟩, ⟨0⟩, [], false⟩, ⟨⟨300⟩, ⟨0⟩, [], true⟩],
        ⟨[⟨⟨50⟩, ⟨10⟩⟩], [none]⟩, 0, 1000, none, false⟩ 0 3 true =
    some ⟨[⟨⟨-5⟩, ⟨0⟩, [], false⟩, ⟨⟨300⟩, ⟨0⟩, [], true⟩],
        ⟨[⟨⟨50⟩, ⟨10⟩⟩], [none]⟩, 0, 1000, none, false⟩ :=
  inactivity_permanent_spec.2.2.2.2.2.2.2.2
    ⟨[⟨⟨-5⟩, ⟨0⟩, [], false⟩, ⟨⟨300⟩, ⟨0⟩, [], true⟩],
      ⟨[⟨⟨50⟩, ⟨10⟩⟩], [none]⟩, 0, 1000, none, false⟩
    0 ⟨⟨-5⟩, ⟨0⟩, [], false⟩ 3 true (by decide) (by decide)

/-- Placeholder blueprint used only to read a defaulted Option. -/
def DEFAULT_BLUEPRINT : PropertyBlueprint := ⟨⟨0⟩, ⟨0⟩⟩

/-- Every board position recorded as owned by player i holds a blueprint
that appears in that player's owned-property list. The game engine maintains
this consistency: ownership is recorded on the board exactly when the buyer
appends the property to their list. -/
def owned_positions_listed (s : GameState) (i : PlayerId) (p : PlayerState) : Prop :=
  ∀ pos, pos < s.board.size → s.board.owner_at pos = some i →
    (s.board.blueprint_at pos).getD DEFAULT_BLUEPRINT ∈ p.properties

instance owned_positions_listed_dec (s : GameState) (i : PlayerId) (p : PlayerState) :
    Decidable (owned_positions_listed s i p) :=
  Nat.decidableBallLT s.board.size (fun pos _ =>
    s.board.owner_at pos = some i →
      (s.board.blueprint_at pos).getD DEFAULT_BLUEPRINT ∈ p.properties)

/-- C1 counterexample: two board positions share cost 50 and rent 10;
player 0 owns the second but the release scan matches the first and stops,
so after the turn that eliminates player 0 (rent 200 owed to player 1),
position 1 is still recorded as owned by the now-inactive player 0. -/
theorem released_owner_counterexample :
    (play_turn
      ⟨[⟨⟨100⟩, ⟨0⟩, [⟨⟨50⟩, ⟨10⟩⟩], true⟩, ⟨⟨300⟩, ⟨2⟩, [⟨⟨60⟩, ⟨200⟩⟩], true⟩],
        ⟨[⟨⟨50⟩, ⟨10⟩⟩, ⟨⟨50⟩, ⟨10⟩⟩, ⟨⟨60⟩, ⟨200⟩⟩], [none, some 0, some 1]⟩,
        0, 1000, none, false⟩ 0 2 false).map
      (fun s2 => ((s2.players.get? 0).map (fun q => q.is_active), s2.board.owner_at 1)) =
    some (some false, some 0) := by
  decide

/-- Ownership entry after an unchecked write: the written value at the
written in-bounds position, unchanged elsewhere (a write past the end of the
map is a no-op, matching a dict whose keys cover exactly the board). -/
lemma owner_at_set_cases (r : Repository) (k : Nat) (v : Option PlayerId) (pos : Nat) :
    (r.set_owner_at k v).owner_at pos =
      if pos = k ∧ pos < r.owners.length then v else r.owner_at pos := by
  unfold Repository.set_owner_at Repository.owner_at
  by_cases h1 : pos = k
  · subst h1
    by_cases h2 : pos < r.owners.length
    · simp only [List.getD, List.get?_eq_getElem?, List.getElem?_set_self]
      simp [h2]
    · rw [List.set_eq_of_length_le (by omega)]
      simp [h2]
  · simp only [List.getD, List.get?_eq_getElem?, List.getElem?_set_ne fun h => h1 h.symm]
    simp [h1]

/-- An out-of-range read of the ownership map gives none. -/
lemma owner_at_out_of_range (r : Repository) (pos : Nat) (h : r.owners.length ≤ pos) :
    r.owner_at pos = none := by
  simp [Repository.owner_at, List.getD, List.get?_eq_getElem?, List.getElem?_eq_none h]

/-- The release scan never touches the blueprint list. -/
lemma release_one_board_properties (st : GameState) (bp : PropertyBlueprint) :
    (release_one st bp).board.properties = st.board.properties := by
  unfold release_one
  split <;> rfl

/-- After one release step each position's owner is either unchanged or
cleared; never set to a player. -/
lemma release_one_owner_mono (st : GameState) (bp : PropertyBlueprint) (pos : Nat) :
    (release_one st bp).board.owner_at pos = st.board.owner_at pos ∨
    (release_one st bp).board.owner_at pos = none := by
  unfold release_one
  split
  next k hk =>
    rw [owner_at_set_cases]
    split
    · exact Or.inr rfl
    · exact Or.inl rfl
  · exact Or.inl rfl

/-- On a board without duplicate (cost, rent) pairs, releasing the blueprint
stored at a position clears that position's ownership. -/
lemma release_one_clears (st : GameState) (bp : PropertyBlueprint) (pos : Nat)
    (hnodup : st.board.properties.Nodup) (hpos : pos < st.board.size)
    (hmatch : st.board.blueprint_at pos = some bp) :
    (release_one st bp).board.owner_at pos = none := by
  unfold release_one
  cases hfind : (List.range st.board.size).find?
      (fun q => st.board.blueprint_at q == some bp) with
  | none =>
    exfalso
    have := List.find?_eq_none.mp hfind pos (List.mem_range.mpr hpos)
    simp [hmatch] at this
  | some k =>
    have hkpred := List.find?_some hfind
    have hkbp : st.board.blueprint_at k = some bp := by simpa using hkpred
    have hkpos : k = pos := by
      have h1 := List.get?_eq_some.mp hkbp
      have h2 := List.get?_eq_some.mp hmatch
      obtain ⟨hb1, e1⟩ := h1
      obtain ⟨hb2, e2⟩ := h2
      have := List.nodup_iff_injective_get.mp hnodup (e1.trans e2.symm)
      exact congrArg Fin.val this
    subst hkpos
    simp only
    rw [owner_at_set_cases]
    split
    · rfl
    next hcond =>
      push_neg at hcond
      exact owner_at_out_of_range _ _ (hcond rfl)

/-- Fold form of release_one_board_properties. -/
lemma release_fold_board_properties (bps : List PropertyBlueprint) (st : GameState) :
    ((bps.foldl release_one st).board.properties) = st.board.properties := by
  induction bps generalizing st with
  | nil => rfl
  | cons bp rest ih => rw [List.foldl_cons, ih, release_one_board_properties]

/-- Fold form of release_one_owner_mono. -/
lemma release_fold_owner_mono (bps : List PropertyBlueprint) (st : GameState) (pos : Nat) :
    ((bps.foldl release_one st).board.owner_at pos = st.board.owner_at pos ∨
     (bps.foldl release_one st).board.owner_at pos = none) := by
  induction bps generalizing st with
  | nil => exact Or.inl rfl
  | cons bp rest ih =>
    rw [List.foldl_cons]
    rcases ih (release_one st bp) with h | h
    · rw [h]
      exact release_one_owner_mono st bp pos
    · exact Or.inr h

/-- On a duplicate-free board, folding the release scan over a list of
blueprints clears the ownership of every position whose stored blueprint is
in the list. -/
lemma release_fold_clears (bps : List PropertyBlueprint) (st : GameState) (pos : Nat)
    (hnodup : st.board.properties.Nodup) (hpos : pos < st.board.size)
    (hbp : (st.board.blueprint_at pos).getD DEFAULT_BLUEPRINT ∈ bps) :
    (bps.foldl release_one st).board.owner_at pos = none := by
  induction bps generalizing st with
  | nil => cases hbp
  | cons bp rest ih =>
    rw [List.foldl_cons]
    have hbpsome : st.board.blueprint_at pos =
        some ((st.board.blueprint_at pos).getD DEFAULT_BLUEPRINT) := by
      have := (List.get?_eq_some.mpr
        ⟨hpos, rfl⟩ : st.board.properties.get? pos = some (st.board.properties.get ⟨pos, hpos⟩))
      unfold Repository.blueprint_at
      rw [this]
      rfl
    rcases List.mem_cons.mp hbp with heq | hmem
    · have hclear := release_one_clears st bp pos hnodup hpos (by rw [hbpsome, heq])
      rcases release_fold_owner_mono rest (release_one st bp) pos with h | h
      · rw [h, hclear]
      · exact h
    · refine ih (release_one st bp) ?_ ?_ ?_
      · rw [release_one_board_properties]
        exact hnodup
      · show pos < (release_one st bp).board.properties.length
        rw [release_one_board_properties]
        exact hpos
      · show ((release_one st bp).board.blueprint_at pos).getD DEFAULT_BLUEPRINT ∈ rest
        unfold Repository.blueprint_at
        rw [show (release_one st bp).board.properties = st.board.properties from
          release_one_board_properties st bp]
        exact hmem

/-- When the purchase went through, the bought blueprint was appended to the
player's owned list. -/
lemma buy_property_true_props {p p1 : PlayerState} {prop : OwnedProperty} {dec : Bool}
    (h : p.buy_property prop dec = some (true, p1)) :
    p1.properties = p.properties ++ [⟨prop.cost, prop.rent⟩] := by
  unfold PlayerState.buy_property PlayerState.can_buy at h
  split at h
  · exact absurd h (by simp)
  next affordable heq =>
    split at heq
    · exact absurd heq (by simp)
    split at h
    · simp at h
    split at h
    · simp only [Option.some.injEq, Prod.mk.injEq] at h
      obtain ⟨-, h2⟩ := h
      subst h2
      rfl
    · simp at h

/-- The exact active flag after pay_rent: lowered iff the new balance is
negative. -/
lemma pay_rent_flag {p p1 : PlayerState} {amount : Money}
    (h : p.pay_rent amount = some p1) :
    p1.is_active = if p1.balance.is_negative = true then false else p.is_active := by
  unfold PlayerState.pay_rent at h
  split at h
  · exact absurd h (by simp)
  · simp only [Option.some.injEq] at h
    subst h
    rfl

/-- Inversion of a successful repository read: the position is in range and
the returned view carries the stored blueprint and the recorded owner. -/
lemma get_property_inv {r : Repository} {pos : Int} {prop : OwnedProperty}
    (h : r.get_property pos = some prop) :
    0 ≤ pos ∧ pos.toNat < r.properties.length ∧
    r.blueprint_at pos.toNat = some ⟨prop.cost, prop.rent⟩ ∧
    r.owner_at pos.toNat = prop.owner := by
  unfold Repository.get_property at h
  split at h
  · exact absurd h (by simp)
  next hcond =>
    push_neg at hcond
    obtain ⟨h1, h2⟩ := hcond
    split at h
    · exact absurd h (by simp)
    next bp hbp =>
      simp only [Option.some.injEq] at h
      subst h
      refine ⟨by omega, by omega, ?_, rfl⟩
      rw [Repository.blueprint_at, hbp]

/-- Through a successful landing the board blueprints are untouched, player
i's resulting state still lists every board position recorded as owned by i,
and if the resulting balance is non-negative the active flag is unchanged.
The two board hypotheses tie the landed-on view to the board, as produced by
get_property in play_turn. -/
lemma handle_landing_release_inv {s : GameState} {i : PlayerId} {p : PlayerState}
    {prop : OwnedProperty} {dec : Bool} {s2 : GameState}
    (hp : s.players.get? i = some p)
    (hbp : s.board.blueprint_at p.position.value = some ⟨prop.cost, prop.rent⟩)
    (hown : s.board.owner_at p.position.value = prop.owner)
    (hlisted : owned_positions_listed s i p)
    (hland : handle_landing s i prop dec = some s2) :
    ∃ p2, s2.players.get? i = some p2 ∧
      s2.board.properties = s.board.properties ∧
      owned_positions_listed s2 i p2 ∧
      (p2.balance.is_negative = false → p2.is_active = p.is_active) := by
  have hilen : i < s.players.length := (List.get?_eq_some.mp hp).1
  unfold handle_landing at hland
  split at hland
  · exact absurd hland (by simp)
  next p' hp' =>
    rw [hp] at hp'
    injection hp' with hp'
    subst hp'
    split at hland
    next hownone =>
      -- unowned: purchase attempt
      split at hland
      · exact absurd hland (by simp)
      next b p1 hbuy =>
        have hbf := buy_property_fields hbuy
        split at hland
        next hbtrue =>
          subst hbtrue
          split at hland
          · exact absurd hland (by simp)
          next b1 hset =>
            simp only [Option.some.injEq] at hland
            subst hland
            unfold Repository.set_owner at hset
            split at hset
            · exact absurd hset (by simp)
            next hrange =>
              simp only [Option.some.injEq] at hset
              subst hset
              refine ⟨p1, setPlayer_get_self _ _ _ hilen, rfl, ?_, ?_⟩
              · intro pos hpos howner
                have hposs : pos < s.board.size := hpos
                have hposval : p1.position.value = p.position.value := by
                  rw [hbf.2.1]
                have hprops1 : p1.properties = p.properties ++ [⟨prop.cost, prop.rent⟩] :=
                  buy_property_true_props hbuy
                have howner2 : (if pos = p1.position.value ∧ pos < s.board.owners.length
                    then some i else s.board.owner_at pos) = some i := by
                  rw [← owner_at_set_cases]
                  exact howner
                by_cases hk : pos = p1.position.value ∧ pos < s.board.owners.length
                · obtain ⟨hk1, -⟩ := hk
                  subst hk1
                  show (s.board.blueprint_at p1.position.value).getD
                      DEFAULT_BLUEPRINT ∈ p1.properties
                  rw [hposval, hbp, hprops1]
                  simp
                · rw [if_neg hk] at howner2
                  show (s.board.blueprint_at pos).getD DEFAULT_BLUEPRINT ∈ p1.properties
                  rw [hprops1]
                  exact List.mem_append_left _ (hlisted pos hposs howner2)
              · intro _
                exact hbf.1
        · simp only [Option.some.injEq] at hland
          subst hland
          refine ⟨p1, setPlayer_get_self _ _ _ hilen, rfl, ?_, fun _ => hbf.1⟩
          intro pos hpos howner
          have hmemp := hlisted pos hpos howner
          rcases hbf.2.2 with hsame | happ
          · rw [hsame]
            exact hmemp
          · rw [happ]
            exact List.mem_append_left _ hmemp
    next j hj =>
      split at hland
      next hne =>
        split at hland
        · exact absurd hland (by simp)
        next p1 hpay =>
          have hpf := pay_rent_fields hpay
          have hflag := pay_rent_flag hpay
          have hp1get : (s.setPlayer i p1).players.get? i = some p1 :=
            setPlayer_get_self _ _ _ hilen
          have hactive : p1.balance.is_negative = false → p1.is_active = p.is_active := by
            intro hneg
            rw [hflag, hneg]
            simp
          have hlist1 : ∀ (st : GameState), st.board = s.board →
              owned_positions_listed st i p1 := by
            intro st hb
            intro pos hpos howner
            rw [hb] at hpos howner ⊢
            rw [hpf.2.2.1]
            exact hlisted pos hpos howner
          split at hland
          · exact absurd hland (by simp)
          next q hq =>
            split at hland
            · split at hland
              · exact absurd hland (by simp)
              next q1 hrecv =>
                simp only [Option.some.injEq] at hland
                subst hland
                refine ⟨p1, ?_, rfl, hlist1 _ rfl, hactive⟩
                rw [setPlayer_get_ne _ _ _ _ hne]
                exact hp1get
            · simp only [Option.some.injEq] at hland
              subst hland
              exact ⟨p1, hp1get, rfl, hlist1 _ rfl, hactive⟩
      · simp only [Option.some.injEq] at hland
        subst hland
        exact ⟨p, hp, rfl, hlisted, fun _ => rfl⟩

/-- On a duplicate-free board, the elimination block clears every board
position recorded as owned by the eliminated player, provided the player's
owned list covers those positions. -/
lemma eliminate_release_clears {s : GameState} {i : PlayerId} {p2 : PlayerState}
    (hnodup : s.board.properties.Nodup)
    (hlisted : owned_positions_listed s i p2) :
    ∀ pos, pos < (eliminate_and_release s i p2).board.size →
      (eliminate_and_release s i p2).board.owner_at pos ≠ some i := by
  intro pos hpos hcontra
  have hposs : pos < s.board.size := by
    have h1 : (eliminate_and_release s i p2).board.properties = s.board.properties := by
      unfold eliminate_and_release
      rw [release_fold_board_properties]
      rfl
    show pos < s.board.properties.length
    rw [← h1]
    exact hpos
  have hst : (s.setPlayer i (p2.eliminate).2).board = s.board := rfl
  rcases release_fold_owner_mono (p2.eliminate).1 (s.setPlayer i (p2.eliminate).2) pos
    with hm | hm
  · have hi : s.board.owner_at pos = some i := by
      rw [show (eliminate_and_release s i p2).board.owner_at pos =
        s.board.owner_at pos from hm] at hcontra
      exact hcontra
    have hmem : (s.board.blueprint_at pos).getD DEFAULT_BLUEPRINT ∈ (p2.eliminate).1 :=
      hlisted pos hposs hi
    have hclear := release_fold_clears (p2.eliminate).1 (s.setPlayer i (p2.eliminate).2)
      pos hnodup hposs hmem
    rw [show (eliminate_and_release s i p2).board.owner_at pos =
      ((p2.eliminate).1.foldl release_one (s.setPlayer i (p2.eliminate).2)).board.owner_at
        pos from rfl, hclear] at hcontra
    cases hcontra
  · rw [show (eliminate_and_release s i p2).board.owner_at pos =
      ((p2.eliminate).1.foldl release_one (s.setPlayer i (p2.eliminate).2)).board.owner_at
        pos from rfl, hm] at hcontra
    cases hcontra

/-- C1 (amended): when the board's (cost, rent) blueprints are pairwise
distinct and every position already recorded as owned by the acting player
holds a blueprint in that player's owned list — both invariants of engine
play, and the distinctness assumption is exactly what the counterexample
violates — a turn that ends with the player eliminated leaves no board
position recorded as owned by that player. -/
theorem elimination_clears_ownership (s : GameState) (i : PlayerId) (p : PlayerState)
    (steps : Int) (dec : Bool) (s2 : GameState)
    (hp : s.players.get? i = some p) (hact : p.is_active = true)
    (hnodup : s.board.properties.Nodup)
    (hlisted : owned_positions_listed s i p)
    (hrun : play_turn s i steps dec = some s2)
    (helim : (s2.players.get? i).map (fun q => q.is_active) = some false) :
    ∀ pos, pos < s2.board.size → s2.board.owner_at pos ≠ some i := by
  have hilen : i < s.players.length := (List.get?_eq_some.mp hp).1
  unfold play_turn at hrun
  split at hrun
  · exact absurd hrun (by simp)
  next p' hp' =>
    rw [hp] at hp'
    injection hp' with hp'
    subst hp'
    split at hrun
    next hinact => exact absurd hact hinact
    next hactb =>
      split at hrun
      · exact absurd hrun (by simp)
      next p1 hmove =>
        split at hrun
        · exact absurd hrun (by simp)
        next prop hprop =>
          split at hrun
          · exact absurd hrun (by simp)
          next sL hland =>
            split at hrun
            · exact absurd hrun (by simp)
            next p2 hp2 =>
              have hmf := move_fields hmove
              have hgp := get_property_inv hprop
              have hbp1 : s.board.blueprint_at p1.position.value =
                  some ⟨prop.cost, prop.rent⟩ := by
                have h := hgp.2.2.1
                simpa using h
              have hown1 : s.board.owner_at p1.position.value = prop.owner := by
                have h := hgp.2.2.2
                simpa using h
              have hlisted1 : owned_positions_listed (s.setPlayer i p1) i p1 := by
                intro pos hpos h
                show (s.board.blueprint_at pos).getD DEFAULT_BLUEPRINT ∈ p1.properties
                rw [hmf.2]
                exact hlisted pos hpos h
              have hp1get : (s.setPlayer i p1).players.get? i = some p1 :=
                setPlayer_get_self _ _ _ hilen
              obtain ⟨p2', hp2', hbprops, hlisted2, hflag⟩ :=
                handle_landing_release_inv hp1get hbp1 hown1 hlisted1 hland
              rw [hp2'] at hp2
              injection hp2 with hp2
              subst hp2
              split at hrun
              next hnegT =>
                simp only [Option.some.injEq] at hrun
                subst hrun
                exact eliminate_release_clears
                  (by rw [show sL.board.properties = s.board.properties from hbprops]
                      exact hnodup)
                  hlisted2
              next hnegF =>
                simp only [Option.some.injEq] at hrun
                subst hrun
                exfalso
                rw [hp2'] at helim
                simp only [Option.map_some', Option.some.injEq] at helim
                have h1 : p2'.is_active = true := by
                  rw [hflag (by simpa using hnegF), hmf.1]
                  exact hact
                rw [helim] at h1
                cases h1

/-- Witness for C1 (amended): on a duplicate-free two-property board,
player 0 (owning position 0) is eliminated by a 200 rent owed to player 1,
and afterwards no position is recorded as owned by player 0. -/
theorem elimination_clears_ownership_witness :
    (GameState.board
        ⟨[⟨⟨-100⟩, ⟨1⟩, [], false⟩, ⟨⟨500⟩, ⟨1⟩, [⟨⟨60⟩, ⟨200⟩⟩], true⟩],
          ⟨[⟨⟨50⟩, ⟨10⟩⟩, ⟨⟨60⟩, ⟨200⟩⟩], [none, some 1]⟩, 0, 1000, none, false⟩).owner_at
        0 ≠ some 0 ∧
    (GameState.board
        ⟨[⟨⟨-100⟩, ⟨1⟩, [], false⟩, ⟨⟨500⟩, ⟨1⟩, [⟨⟨60⟩, ⟨200⟩⟩], true⟩],
          ⟨[⟨⟨50⟩, ⟨10⟩⟩, ⟨⟨60⟩, ⟨200⟩⟩], [none, some 1]⟩, 0, 1000, none, false⟩).owner_at
        1 ≠ some 0 :=
  ⟨elimination_clears_ownership
    ⟨[⟨⟨100⟩, ⟨0⟩, [⟨⟨50⟩, ⟨10⟩⟩], true⟩, ⟨⟨300⟩, ⟨1⟩, [⟨⟨60⟩, ⟨200⟩⟩], true⟩],
      ⟨[⟨⟨50⟩, ⟨10⟩⟩, ⟨⟨60⟩, ⟨200⟩⟩], [some 0, some 1]⟩, 0, 1000, none, false⟩
    0 ⟨⟨100⟩, ⟨0⟩, [⟨⟨50⟩, ⟨10⟩⟩], true⟩ 1 false
    ⟨[⟨⟨-100⟩, ⟨1⟩, [], false⟩, ⟨⟨500⟩, ⟨1⟩, [⟨⟨60⟩, ⟨200⟩⟩], true⟩],
      ⟨[⟨⟨50⟩, ⟨10⟩⟩, ⟨⟨60⟩, ⟨200⟩⟩], [none, some 1]⟩, 0, 1000, none, false⟩
    (by decide) (by decide) (by decide) (by decide) (by decide) (by decide)
    0 (by decide),
   elimination_clears_ownership
    ⟨[⟨⟨100⟩, ⟨0⟩, [⟨⟨50⟩, ⟨10⟩⟩], true⟩, ⟨⟨300⟩, ⟨1⟩, [⟨⟨60⟩, ⟨200⟩⟩], true⟩],
      ⟨[⟨⟨50⟩, ⟨10⟩⟩, ⟨⟨60⟩, ⟨200⟩⟩], [some 0, some 1]⟩, 0, 1000, none, false⟩
    0 ⟨⟨100⟩, ⟨0⟩, [⟨⟨50⟩, ⟨10⟩⟩], true⟩ 1 false
    ⟨[⟨⟨-100⟩, ⟨1⟩, [], false⟩, ⟨⟨500⟩, ⟨1⟩, [⟨⟨60⟩, ⟨200⟩⟩], true⟩],
      ⟨[⟨⟨50⟩, ⟨10⟩⟩, ⟨⟨60⟩, ⟨200⟩⟩], [none, some 1]⟩, 0, 1000, none, false⟩
    (by decide) (by decide) (by decide) (by decide) (by decide) (by decide)
    1 (by decide)⟩

end Claims

end BrasilPrev
